import Mathlib

/-!
Verification development for the NoLess code-analysis core
(`noless/code_validator.py`, `noless/code_metrics.py`,
`noless/error_detection.py`, `noless/feedback_loops.py`).

The Python source is shallowly embedded: every definition below mirrors a
function of the source (names follow the Python ones), with
- machine text modelled as `String` / `List Char`,
- Python floats modelled as `ℚ` (all arithmetic involved is exact),
- fallible code modelled with `Option` / `Except`,
- the external generation collaborator (`OllamaClient.generate`) modelled as
  an arbitrary function supplied as an argument, since it is an external
  service outside this core.
-/

set_option maxHeartbeats 1000000

namespace NoLess

/-! ## Basic string machinery (Python `str` operations used by the source) -/

/-- The brace characters, named so that they never appear literally in strings. -/
def lbrace : Char := Char.ofNat 123

def rbrace : Char := Char.ofNat 125

/-- Characters that Python's `str.strip()` (on ASCII text) and the regex class
`\s` treat as whitespace. -/
def isPyWs (c : Char) : Bool :=
  c = ' ' || c = '\t' || c = '\n' || c = '\r' || c = '\x0b' || c = '\x0c'

/-- `str.strip()` on a character list. -/
def stripChars (cs : List Char) : List Char :=
  ((cs.dropWhile isPyWs).reverse.dropWhile isPyWs).reverse

/-- Python `str.strip()`. -/
def pyStrip (s : String) : String := ⟨stripChars s.data⟩

/-- Python `str.lower()` (ASCII). -/
def pyLower (s : String) : String := ⟨s.data.map Char.toLower⟩

/-- Index of the first occurrence of `needle` in `cs` (Python `str.find`,
with absence reported as `none` instead of `-1`). -/
def findSub : List Char → List Char → Option Nat
  | [], needle => if needle.isEmpty then some 0 else none
  | c :: rest, needle =>
    if needle.isPrefixOf (c :: rest) then some 0
    else (findSub rest needle).map (· + 1)

/-- Python `needle in hay` on strings. -/
def strContains (hay needle : String) : Bool :=
  (findSub hay.data needle.data).isSome

/-- Python `hay.find(needle)` as an `Option`. -/
def pyFind (hay needle : String) : Option Nat :=
  findSub hay.data needle.data

/-- Python `hay.find(needle, start)` as an `Option` (absolute index). -/
def pyFindFrom (hay needle : String) (start : Nat) : Option Nat :=
  (findSub (hay.data.drop start) needle.data).map (· + start)

/-- Python slice `s[a:b]` for `0 ≤ a ≤ b` (clamping like Python). -/
def pySlice (s : String) (a b : Nat) : String :=
  ⟨(s.data.take b).drop a⟩

/-- Python `s[a:]`. -/
def pyDrop (s : String) (a : Nat) : String := ⟨s.data.drop a⟩

/-- Python `s[:b]`. -/
def pyTake (s : String) (b : Nat) : String := ⟨s.data.take b⟩

/-- Python `s.split("\n")` (note: splitting the empty string yields `[""]`). -/
def splitNl : List Char → List (List Char)
  | [] => [[]]
  | c :: rest =>
    if c = '\n' then [] :: splitNl rest
    else
      match splitNl rest with
      | [] => [[c]]
      | l :: ls => (c :: l) :: ls

/-- Python `s.split("\n")` on strings. -/
def pyLines (s : String) : List String :=
  (splitNl s.data).map (⟨·⟩)

/-- Python `s.count(c)` for a single character. -/
def countChar (s : String) (c : Char) : Nat :=
  s.data.countP (· = c)

/-- Python `s.count(sub)` (non-overlapping occurrences) on character lists. -/
def countSubAux : Nat → List Char → List Char → Nat
  | 0, _, _ => 0
  | fuel + 1, cs, needle =>
    if needle.isEmpty then 0
    else if needle.isPrefixOf cs then
      1 + countSubAux fuel (cs.drop needle.length) needle
    else
      match cs with
      | [] => 0
      | _ :: rest => countSubAux fuel rest needle

/-- Python `s.count(sub)` for a non-empty `sub`. -/
def pyCount (s sub : String) : Nat :=
  countSubAux (s.data.length + 1) s.data sub.data

/-- Python `s.startswith(p)`. -/
def pyStartsWith (s p : String) : Bool :=
  p.data.isPrefixOf s.data

/-! ## JSON values and a model of `json.loads`

`_robust_json_parse` and `_parse_review_response` manipulate the results of
`json.loads`; we model JSON values as an inductive type and `json.loads` as a
strict recursive-descent parser (objects, arrays, strings with the usual
escapes, integers, booleans, null; no trailing commas). -/

inductive JsonVal where
  | null : JsonVal
  | bool : Bool → JsonVal
  | num : Int → JsonVal
  | str : String → JsonVal
  | arr : List JsonVal → JsonVal
  | obj : List (String × JsonVal) → JsonVal
deriving Repr, BEq

/-- JSON insignificant whitespace (RFC 8259, what `json.loads` skips). -/
def isJsonWs (c : Char) : Bool :=
  c = ' ' || c = '\t' || c = '\n' || c = '\r'

def skipJsonWs (cs : List Char) : List Char :=
  cs.dropWhile isJsonWs

/-- Parse a JSON string body after the opening quote; returns the decoded
characters and the remaining input after the closing quote. -/
def parseJsonStr : Nat → List Char → Option (List Char × List Char)
  | 0, _ => none
  | _ + 1, [] => none
  | fuel + 1, c :: rest =>
    if c = '"' then some ([], rest)
    else if c = '\\' then
      match rest with
      | [] => none
      | e :: rest' =>
        let dec : Option Char :=
          if e = '"' then some '"'
          else if e = '\\' then some '\\'
          else if e = '/' then some '/'
          else if e = 'n' then some '\n'
          else if e = 't' then some '\t'
          else if e = 'r' then some '\r'
          else if e = 'b' then some (Char.ofNat 8)
          else if e = 'f' then some (Char.ofNat 12)
          else none
        match dec with
        | none => none
        | some d =>
          match parseJsonStr fuel rest' with
          | none => none
          | some (s, rem) => some (d :: s, rem)
    else
      match parseJsonStr fuel rest with
      | none => none
      | some (s, rem) => some (c :: s, rem)

/-- Parse a JSON integer (leading `-` and digits; a following `.`, `e` or `E`
makes it a float, which this model rejects). -/
def parseJsonInt (cs : List Char) : Option (Int × List Char) :=
  let (neg, cs') : Bool × List Char :=
    match cs with
    | '-' :: rest => (true, rest)
    | _ => (false, cs)
  let digits := cs'.takeWhile Char.isDigit
  let rest := cs'.dropWhile Char.isDigit
  if digits.isEmpty then none
  else
    match rest with
    | '.' :: _ => none
    | 'e' :: _ => none
    | 'E' :: _ => none
    | _ =>
      let n : Nat := digits.foldl (fun acc c => acc * 10 + (c.toNat - 48)) 0
      some (if neg then -(n : Int) else (n : Int), rest)

/-- The pending grammar production of the JSON parser: one value; the inside
of an object (after the opening brace) or of an array; member/element lists
with their accumulator. -/
inductive JMode where
  | val : JMode
  | objStart : JMode
  | members : List (String × JsonVal) → JMode
  | arrStart : JMode
  | elems : List JsonVal → JMode

/-- Recursive-descent JSON parsing, structurally recursive on a fuel bound
(every recursive call consumes one unit; the wrapper supplies enough). -/
def parseJsonAux : Nat → JMode → List Char → Option (JsonVal × List Char)
  | 0, _, _ => none
  | fuel + 1, .val, cs =>
    (match skipJsonWs cs with
     | [] => none
     | c :: rest =>
       if c = '"' then
         match parseJsonStr (rest.length + 1) rest with
         | none => none
         | some (s, rem) => some (.str ⟨s⟩, rem)
       else if c = lbrace then
         parseJsonAux fuel .objStart rest
       else if c = '[' then
         parseJsonAux fuel .arrStart rest
       else if c = 't' then
         if ['r', 'u', 'e'].isPrefixOf rest then some (.bool true, rest.drop 3) else none
       else if c = 'f' then
         if ['a', 'l', 's', 'e'].isPrefixOf rest then some (.bool false, rest.drop 4) else none
       else if c = 'n' then
         if ['u', 'l', 'l'].isPrefixOf rest then some (.null, rest.drop 3) else none
       else
         match parseJsonInt (c :: rest) with
         | none => none
         | some (n, rem) => some (.num n, rem))
  | fuel + 1, .objStart, cs =>
    (match skipJsonWs cs with
     | [] => none
     | c :: rest =>
       if c = rbrace then some (.obj [], rest)
       else parseJsonAux fuel (.members []) (c :: rest))
  | fuel + 1, .members acc, cs =>
    (match skipJsonWs cs with
     | [] => none
     | c :: rest =>
       if c = '"' then
         match parseJsonStr (rest.length + 1) rest with
         | none => none
         | some (k, rem) =>
           match skipJsonWs rem with
           | ':' :: rem' =>
             match parseJsonAux fuel .val rem' with
             | none => none
             | some (v, rem'') =>
               match skipJsonWs rem'' with
               | ',' :: rem''' => parseJsonAux fuel (.members (acc ++ [(⟨k⟩, v)])) rem'''
               | d :: rem''' =>
                 if d = rbrace then some (.obj (acc ++ [(⟨k⟩, v)]), rem''') else none
               | [] => none
           | _ => none
       else none)
  | fuel + 1, .arrStart, cs =>
    (match skipJsonWs cs with
     | ']' :: rest => some (.arr [], rest)
     | _ => parseJsonAux fuel (.elems []) cs)
  | fuel + 1, .elems acc, cs =>
    (match parseJsonAux fuel .val cs with
     | none => none
     | some (v, rem) =>
       match skipJsonWs rem with
       | ',' :: rem' => parseJsonAux fuel (.elems (acc ++ [v])) rem'
       | ']' :: rem' => some (.arr (acc ++ [v]), rem')
       | _ => none)

/-- Model of Python `json.loads`: the whole input must be one JSON value
surrounded only by whitespace. -/
def jsonLoads (s : String) : Option JsonVal :=
  match parseJsonAux (4 * s.data.length + 8) .val s.data with
  | none => none
  | some (v, rem) => if (skipJsonWs rem).isEmpty then some v else none

/-! ## `CodeValidator._robust_json_parse` (code_validator.py lines 538–608) -/

/-- Model of `re.search` with the fenced-block pattern (prefix, then `\s*`,
lazy group, `\s*`, then three backticks, DOTALL): the group is the text
between the first occurrence of `opener` and the earliest following
closing fence, with surrounding whitespace stripped. -/
def findFenced (text opener : String) : Option String :=
  match pyFind text opener with
  | none => none
  | some i =>
    match pyFindFrom text "```" (i + opener.length) with
    | none => none
    | some j => some (pyStrip (pySlice text (i + opener.length) j))

/-- The brace/string/escape scan of `_robust_json_parse` method 3
(source lines 559–586): returns the absolute index of the brace closing the
first opening brace, skipping braces inside string literals and treating the
character after a backslash as escaped. -/
def braceScanAux : List Char → Int → Bool → Bool → Nat → Option Nat
  | [], _, _, _, _ => none
  | c :: rest, braceCount, inString, escapeNext, idx =>
    if escapeNext then braceScanAux rest braceCount inString false (idx + 1)
    else if c = '\\' then braceScanAux rest braceCount inString true (idx + 1)
    else if c = '"' then braceScanAux rest braceCount (!inString) escapeNext (idx + 1)
    else if !inString && c = lbrace then
      braceScanAux rest (braceCount + 1) inString escapeNext (idx + 1)
    else if !inString && c = rbrace then
      if braceCount - 1 = 0 then some idx
      else braceScanAux rest (braceCount - 1) inString escapeNext (idx + 1)
    else braceScanAux rest braceCount inString escapeNext (idx + 1)

/-- Model of `re.sub` removing a comma (plus `\s*`) that directly precedes a
closing brace or bracket, scanning left to right, non-overlapping. -/
def rmTrailCommaAux : Nat → List Char → List Char
  | 0, cs => cs
  | _ + 1, [] => []
  | fuel + 1, c :: rest =>
    if c = ',' then
      match rest.dropWhile isPyWs with
      | d :: tail =>
        if d = rbrace || d = ']' then d :: rmTrailCommaAux fuel tail
        else c :: rmTrailCommaAux fuel rest
      | [] => c :: rmTrailCommaAux fuel rest
    else c :: rmTrailCommaAux fuel rest

/-- `re.sub(r',\s*([}\]])', r'\1', s)` from method 3's repair step. -/
def rmTrailingCommas (s : String) : String :=
  ⟨rmTrailCommaAux (s.data.length + 1) s.data⟩

/-- Model of `re.search` with the method-4 pattern (an opening brace, any
non-brace characters, a closing brace): the first such span. -/
def simpleBraceAux : Nat → List Char → Option (List Char)
  | 0, _ => none
  | _ + 1, [] => none
  | fuel + 1, c :: rest =>
    if c = lbrace then
      let span := rest.takeWhile (fun d => d ≠ lbrace && d ≠ rbrace)
      match rest.dropWhile (fun d => d ≠ lbrace && d ≠ rbrace) with
      | d :: _ =>
        if d = rbrace then some (lbrace :: (span ++ [rbrace]))
        else simpleBraceAux fuel rest
      | [] => none
    else simpleBraceAux fuel rest

/-- `CodeValidator._robust_json_parse`: four ordered attempts — direct
`json.loads`, a fenced `json` block, the escape-aware outermost-brace scan
(with one trailing-comma repair retry), and a last-resort brace-pair regex. -/
def robustJsonParse (text0 : String) : Option JsonVal :=
  let text := pyStrip text0
  let method4 : Option JsonVal :=
    match simpleBraceAux (text.data.length + 1) text.data with
    | none => none
    | some span => jsonLoads ⟨span⟩
  match jsonLoads text with
  | some v => some v
  | none =>
    match (findFenced text "```json").bind jsonLoads with
    | some v => some v
    | none =>
      match text.data.findIdx? (fun c => c = lbrace) with
      | none => method4
      | some startIdx =>
        match braceScanAux (text.data.drop startIdx) 0 false false startIdx with
        | none => method4
        | some endIdx =>
          let jsonStr := pySlice text startIdx (endIdx + 1)
          match jsonLoads jsonStr with
          | some v => some v
          | none =>
            match jsonLoads (rmTrailingCommas jsonStr) with
            | some v => some v
            | none => method4

/-! ## Python value semantics used by `_parse_review_response`

The parsed review is a Python object (usually a dict); the source applies
truthiness tests, `in` membership and item assignment to it, which raise
`TypeError` on some shapes. -/

inductive PyErr where
  | typeError
  | unboundLocal
  | generationError
deriving Repr, BEq, DecidableEq

/-- Python truthiness of a JSON-decoded value. -/
def pyTruthy : JsonVal → Bool
  | .null => false
  | .bool b => b
  | .num n => n ≠ 0
  | .str s => !s.data.isEmpty
  | .arr xs => !xs.isEmpty
  | .obj fs => !fs.isEmpty

/-- `d.get(k, default)` / `d[k]` lookup on a Python dict. -/
def dictGet (d : List (String × JsonVal)) (k : String) (dflt : JsonVal) : JsonVal :=
  match d.find? (fun p => p.1 = k) with
  | some p => p.2
  | none => dflt

/-- `d[k] = v` on a Python dict: update in place if the key exists,
otherwise append at the end. -/
def dictSet (d : List (String × JsonVal)) (k : String) (v : JsonVal) :
    List (String × JsonVal) :=
  if d.any (fun p => p.1 = k) then
    d.map (fun p => if p.1 = k then (k, v) else p)
  else d ++ [(k, v)]

/-- Python `k in v` for a string key: dict key membership, substring test on
strings, element membership on lists; `TypeError` on numbers and booleans. -/
def keyIn (v : JsonVal) (k : String) : Except PyErr Bool :=
  match v with
  | .obj fs => .ok (fs.any (fun p => p.1 = k))
  | .str s => .ok (strContains s k)
  | .arr xs => .ok (xs.any (fun x => x == JsonVal.str k))
  | _ => .error .typeError

/-- Python `v[k] = x` for a string key: only dicts support item assignment. -/
def setKeyJson (v : JsonVal) (k : String) (x : JsonVal) : Except PyErr JsonVal :=
  match v with
  | .obj fs => .ok (.obj (dictSet fs k x))
  | _ => .error .typeError

/-- `if k not in result: result[k] = dflt` from lines 503–508. -/
def ensureKey (v : JsonVal) (k : String) (dflt : JsonVal) : Except PyErr JsonVal :=
  match keyIn v k with
  | .error e => .error e
  | .ok true => .ok v
  | .ok false => setKeyJson v k dflt

/-! ## `CodeValidator._parse_review_response` (code_validator.py lines 494–536) -/

def problemWords : List String :=
  ["error", "bug", "issue", "problem", "missing", "incorrect"]

def suggestionWords : List String :=
  ["suggest", "recommend", "consider", "should", "could", "better"]

/-- `any(word in line.lower() for word in ws)`. -/
def lineHasAny (line : String) (ws : List String) : Bool :=
  ws.any (fun w => strContains (pyLower line) w)

/-- `if line and len(line) > 10 and len(line) < 200` (line 526). -/
def validLine (line : String) : Bool :=
  !line.data.isEmpty && decide (10 < line.length) && decide (line.length < 200)

/-- The body of the heuristic line loop (lines 524–530): append a problem
line to issues, or — only otherwise — a suggestion line to suggestions, each
truncated to 150 characters. -/
def heuristicStep (acc : List String × List String) (rawLine : String) :
    List String × List String :=
  let line := pyStrip rawLine
  if validLine line then
    if lineHasAny line problemWords then (acc.1 ++ [pyTake line 150], acc.2)
    else if lineHasAny line suggestionWords then (acc.1, acc.2 ++ [pyTake line 150])
    else acc
  else acc

/-- The line-by-line scan of the heuristic fallback (lines 524–530). -/
def heuristicScan (lines : List String) : List String × List String :=
  lines.foldl heuristicStep ([], [])

def placeholderSuggestion : String :=
  "Code review completed - no specific issues found"

/-- The gate of line 522: the scan only happens at all when the whole
response mentions error, bug or issue (case-insensitively). -/
def heuristicGuard (response : String) : Bool :=
  strContains (pyLower response) "error" || strContains (pyLower response) "bug" ||
    strContains (pyLower response) "issue"

/-- The `else` dictionary of line 536. -/
def placeholderObj : JsonVal :=
  .obj [("valid", .bool true), ("issues", .arr []),
        ("suggestions", .arr [.str placeholderSuggestion])]

/-- The heuristic fallback result (lines 512–536), for an already-stripped
response: the scan runs only when the whole response mentions
error/bug/issue; both lists are capped at 5; if both end up empty a single
placeholder suggestion is returned instead. -/
def heuristicReview (response : String) : JsonVal :=
  let scanned := if heuristicGuard response then heuristicScan (pyLines response) else ([], [])
  let issues := scanned.1.take 5
  let suggestions := scanned.2.take 5
  if issues.isEmpty && suggestions.isEmpty then placeholderObj
  else
    .obj [("valid", .bool true), ("issues", .arr (issues.map .str)),
          ("suggestions", .arr (suggestions.map .str))]

/-- `CodeValidator._parse_review_response`: robust JSON parse first (filling
in the `valid`/`issues`/`suggestions` defaults, which raises `TypeError` when
the parse produced a truthy non-dict), else the heuristic fallback. -/
def parseReviewResponse (response0 : String) : Except PyErr JsonVal :=
  let response := pyStrip response0
  match robustJsonParse response with
  | some result =>
    if pyTruthy result then
      match ensureKey result "valid" (.bool true) with
      | .error e => .error e
      | .ok r1 =>
        match ensureKey r1 "issues" (.arr []) with
        | .error e => .error e
        | .ok r2 =>
          match ensureKey r2 "suggestions" (.arr []) with
          | .error e => .error e
          | .ok r3 => .ok r3
    else .ok (heuristicReview response)
  | none => .ok (heuristicReview response)

/-! ## `CodeValidator._extract_code_from_response` (lines 446–467) -/

/-- Code extraction from an LLM reply: a `python`-labelled fence; else any
fence whose stripped contents carry a def/import/class marker; else the raw
(stripped) text when it has a def/class marker and more than two newlines. -/
def extractCodeFromResponse (response0 : String) : Option String :=
  let response := pyStrip response0
  match findFenced response "```python" with
  | some g => some (pyStrip g)
  | none =>
    let m2 : Option String :=
      match findFenced response "```" with
      | some g =>
        let code := pyStrip g
        if strContains code "def " || strContains code "import " ||
            strContains code "class " || pyStartsWith code "import" then
          some code
        else none
      | none => none
    match m2 with
    | some code => some code
    | none =>
      if (strContains response "def " || strContains response "class ") &&
          decide (2 < countChar response '\n') then
        some response
      else none

/-! ## `CodeValidator._attempt_to_fix_issues` (lines 364–444)

The collaborator call is modelled by `generate : Nat → Except PyErr String`
(attempt number to response), since the constructed fix prompt only feeds
that external call; an `.error` result models a raised exception, which the
source catches inside the attempt loop. -/

/-- The bounded attempt loop (lines 413–435): try each attempt in order; a
collaborator failure is swallowed; extraction must yield truthy code
different from the original. -/
def fixAttempts (generate : Nat → Except PyErr String) (originalCode : String) :
    List Nat → Option String
  | [] => none
  | a :: rest =>
    match generate a with
    | .error _ => fixAttempts generate originalCode rest
    | .ok response =>
      match extractCodeFromResponse response with
      | some f =>
        if !f.data.isEmpty && f ≠ originalCode then some f
        else fixAttempts generate originalCode rest
      | none => fixAttempts generate originalCode rest

/-- `CodeValidator._attempt_to_fix_issues`: nothing to do without issues;
otherwise at most 2 attempts (`max_attempts = 2`), storing the fixed code on
success and returning the incoming result unchanged on exhaustion. -/
def attemptToFixIssues (generate : Nat → Except PyErr String)
    (result : List (String × JsonVal)) (originalCode : String) :
    List (String × JsonVal) :=
  let issues := dictGet result "issues" (.arr [])
  let staticIssues := dictGet result "static_issues" (.arr [])
  if !(pyTruthy issues || pyTruthy staticIssues) then result
  else
    match fixAttempts generate originalCode [1, 2] with
    | some f => dictSet result "improved_code" (.str f)
    | none => result

/-! ## `IterativeFeedbackLoop` (feedback_loops.py)

The collaborator (`OllamaClient.generate`) is modelled per iteration as
`gen : Nat → String → String → Except PyErr String` (iteration number,
current code, feedback — the pieces of the prompt that vary — to the reply);
`.error` models a raised exception, which `_generate_refinement` does NOT
catch. The validator is `Option (String → Bool × String)`, covering the
`validation_result.get("success", False)` / `.get("feedback", "")` reads. -/

/-- `IterativeFeedbackLoop._extract_code` (lines 150–161): strip a fenced
block if present (with Python's `find`-returns-−1 slice quirk when a fence
never closes), else strip the whole reply. -/
def flExtractCode (response : String) : String :=
  if strContains response "```python" then
    let start := (pyFind response "```python").getD 0 + 9
    match pyFindFrom response "```" start with
    | some e => pyStrip (pySlice response start e)
    | none => pyStrip (pySlice response start (response.length - 1))
  else if strContains response "```" then
    let start := (pyFind response "```").getD 0 + 3
    match pyFindFrom response "```" start with
    | some e => pyStrip (pySlice response start e)
    | none => pyStrip (pySlice response start (response.length - 1))
  else pyStrip response

/-- `IterativeFeedbackLoop._extract_improvements` (lines 163–183). -/
def extractImprovements (oldCode newCode : String) : List String :=
  let l1 : List String :=
    if strContains newCode "try:" && !strContains oldCode "try:" then
      ["Added error handling"] else []
  let l2 : List String :=
    if strContains newCode "def " &&
        decide (pyCount oldCode "def " < pyCount newCode "def ") then
      ["Refactored into more functions"] else []
  let l3 : List String :=
    if strContains newCode "\"\"\"" && !strContains oldCode "\"\"\"" then
      ["Added documentation"] else []
  let l4 : List String :=
    if strContains newCode ":" && decide (pyCount oldCode ":" < pyCount newCode ":") then
      ["Added/improved type hints"] else []
  let l5 : List String :=
    if decide (oldCode.length < newCode.length) then
      ["Added more comprehensive implementation"] else []
  let improvements := l1 ++ l2 ++ l3 ++ l4 ++ l5
  if improvements.isEmpty then ["Code refined"] else improvements

/-- `IterativeFeedbackLoop._generate_refinement` (lines 114–148): one
collaborator call followed by code extraction; a collaborator exception is
not caught and propagates. -/
def generateRefinement (generate : String → String → Except PyErr String)
    (code feedback : String) : Except PyErr String :=
  match generate code feedback with
  | .error e => .error e
  | .ok response => .ok (flExtractCode response)

/-- Lines 79–86 of `refine`: the `(success, feedback)` pair obtained from the
optional validator (`.get("success", False)` / `.get("feedback", "")` are
covered by the arbitrary validator function). -/
def valRes (validator : Option (String → Bool × String)) (code : String) :
    Bool × String :=
  match validator with
  | some v => v code
  | none => (true, "Code passed basic validation")

structure RefinementStep where
  iteration : Nat
  code : String
  feedback : String
  improvements : List String
  success : Bool
deriving Repr, BEq, DecidableEq

/-- The dictionary `refine` returns (the `improvements` summary string,
which joins a Python `set` in unspecified order, is omitted). -/
structure RefineResult where
  refined_code : String
  iterations : Nat
  success : Bool
  history : List RefinementStep
deriving Repr, BEq, DecidableEq

/-- The `while iteration < max_iterations` loop of `refine` (lines 66–104):
`fuel` is the number of remaining permitted iterations and `lastSuccess`
the value of the Python local `success` (unassigned before the first
iteration, hence `UnboundLocalError` at the return statement when the loop
never runs). On a successful validation the loop breaks *before*
`current_code = refined_code`, so the result carries the iteration's input
code while the recorded step carries the generated code. -/
def refineGo (gen : Nat → String → String → Except PyErr String)
    (validator : Option (String → Bool × String)) :
    Nat → Nat → String → String → List RefinementStep → Option Bool →
    Except PyErr RefineResult
  | 0, iteration, currentCode, _, history, lastSuccess =>
    match lastSuccess with
    | none => .error .unboundLocal
    | some s => .ok ⟨currentCode, iteration, s, history⟩
  | fuel + 1, iteration, currentCode, feedback, history, _ =>
    let iter' := iteration + 1
    match generateRefinement (gen iter') currentCode feedback with
    | .error e => .error e
    | .ok refinedCode =>
      let vres := valRes validator refinedCode
      let step : RefinementStep :=
        ⟨iter', refinedCode, vres.2, extractImprovements currentCode refinedCode, vres.1⟩
      let history' := history ++ [step]
      if vres.1 then .ok ⟨currentCode, iter', true, history'⟩
      else refineGo gen validator fuel iter' refinedCode vres.2 history' (some vres.1)

/-- `IterativeFeedbackLoop.refine` (lines 44–112), for a freshly constructed
loop (empty history). -/
def refine (gen : Nat → String → String → Except PyErr String)
    (validator : Option (String → Bool × String)) (maxIterations : Nat)
    (code initialFeedback : String) : Except PyErr RefineResult :=
  refineGo gen validator maxIterations 0 code initialFeedback [] none

/-! ## A model of the Python syntax tree (`ast` module)

Only the node features the analyzers inspect are carried: the node kind with
its inspected attributes, `lineno`, the dynamically injected `_parent`
attribute (which `ast.parse` never sets — it would have to be assigned by
some traversal, and no code in the repository ever assigns it), and the
child list. `ast.parse` itself (the CPython grammar) is external to this
embedding: the analyzers below therefore take the parsed tree — `none` for a
`SyntaxError` — as an argument. -/

inductive PyKind where
  | functionDef (name : String) (hasReturns : Bool) (argAnnots : List Bool)
  | asyncFunctionDef (name : String) (hasReturns : Bool) (argAnnots : List Bool)
  | classDef
  | ifStmt
  | forStmt
  | whileStmt
  | exceptHandler
  | boolOp
  | binOpAdd (leftConst rightConst : Bool)
  | binOpOther
  | callAttr (attr : String) (hasTimeoutKw : Bool)
  | callName (id : String) (hasTimeoutKw : Bool)
  | assertStmt
  | listComp
  | dictComp
  | moduleNode
  | other
deriving Repr, BEq, DecidableEq

inductive PyNode where
  | mk (kind : PyKind) (lineno : Nat) (parentAttr : Option PyNode)
      (children : List PyNode) : PyNode

def PyNode.kind : PyNode → PyKind
  | .mk k _ _ _ => k

def PyNode.lineno : PyNode → Nat
  | .mk _ l _ _ => l

def PyNode.parentAttr : PyNode → Option PyNode
  | .mk _ _ p _ => p

def PyNode.children : PyNode → List PyNode
  | .mk _ _ _ ch => ch

mutual

/-- Total number of nodes in a tree (fuel for the breadth-first walk). -/
def nodeSize : PyNode → Nat
  | .mk _ _ _ ch => 1 + nodeSizeList ch

/-- Total number of nodes in a forest. -/
def nodeSizeList : List PyNode → Nat
  | [] => 0
  | n :: rest => nodeSize n + nodeSizeList rest

end

/-- `ast.walk`: breadth-first traversal via a queue, yielding each node
before its children are expanded; structurally recursive on a fuel bound
(the total node count, supplied exactly by the wrapper, so the fuel case
is never hit). -/
def walkAux : Nat → List PyNode → List PyNode
  | 0, _ => []
  | _ + 1, [] => []
  | fuel + 1, .mk k l p ch :: rest => .mk k l p ch :: walkAux fuel (rest ++ ch)

/-- `ast.walk(node)`. -/
def astWalk (n : PyNode) : List PyNode := walkAux (nodeSizeList [n]) [n]

/-! ## `error_detection.PerformanceAnalyzer` -/

structure PerformanceIssue where
  type : String
  location : Option String
  message : String
  impact : String
  suggestion : Option String
deriving Repr, BEq, DecidableEq

/-- The `while hasattr(current, "_parent")` loop of `_get_nesting_depth`
(lines 287–289): the length of the `_parent` chain hanging off a node. -/
def parentChainLen : PyNode → Nat
  | .mk _ _ none _ => 0
  | .mk _ _ (some p) _ => 1 + parentChainLen p

/-- `PerformanceAnalyzer._get_nesting_depth` (lines 280–292): the maximum
`_parent`-chain length over all nodes reachable from `node`. -/
def getNestingDepth (node : PyNode) : Nat :=
  (astWalk node).foldl (fun m c => max m (parentChainLen c)) 0

/-- The per-walked-node check of `_check_loop_patterns` (lines 202–205): a
call of an `append`/`insert`/`remove` attribute. -/
def loopIssueOf (c : PyNode) : Option PerformanceIssue :=
  match c.kind with
  | .callAttr attr _ =>
    if attr = "append" || attr = "insert" || attr = "remove" then
      some ⟨"inefficient_loop", none,
        "List modification inside loop is inefficient", "high",
        some "Use list comprehension instead: [modify(x) for x in items]"⟩
    else none
  | _ => none

/-- `PerformanceAnalyzer._check_loop_patterns` (lines 197–215). -/
def checkLoopPatterns (node : PyNode) : List PerformanceIssue :=
  (astWalk node).filterMap loopIssueOf

/-- `PerformanceAnalyzer._check_string_concat` (lines 217–234): both operands
constant, then the `_parent` attribute must be an `ast.For`. -/
def checkStringConcat (node : PyNode) : List PerformanceIssue :=
  match node.kind with
  | .binOpAdd lc rc =>
    if lc && rc then
      match node.parentAttr with
      | some p =>
        match p.kind with
        | .forStmt =>
          [⟨"string_concat", none, "String concatenation in loop is slow", "high",
            some "Use list + join() instead: ''.join([...])"⟩]
        | _ => []
      | none => []
    else []
  | _ => []

def isFuncDef (n : PyNode) : Bool :=
  match n.kind with
  | .functionDef _ _ _ => true
  | .asyncFunctionDef _ _ _ => true
  | _ => false

def funcDefName (n : PyNode) : Option String :=
  match n.kind with
  | .functionDef name _ _ => some name
  | .asyncFunctionDef name _ _ => some name
  | _ => none

/-- The contribution of a single walked node in `PerformanceAnalyzer.analyze`
(lines 162–187): loop patterns for `For` nodes, string concatenation for
additive `BinOp` nodes, deep nesting for function definitions, comprehension
check (which always returns nothing). -/
def perfNodeIssues (node : PyNode) : List PerformanceIssue :=
  (match node.kind with
   | .forStmt => checkLoopPatterns node
   | _ => []) ++
  (match node.kind with
   | .binOpAdd _ _ => checkStringConcat node
   | _ => []) ++
  (match funcDefName node with
   | some name =>
     let depth := getNestingDepth node
     if 4 < depth then
       [⟨"deep_nesting", some name,
         "High nesting depth (" ++ toString depth ++
           ") reduces readability and performance",
         "medium", some "Refactor into smaller functions"⟩]
     else []
   | none => [])

/-- The tree-walking part of `PerformanceAnalyzer.analyze` (lines 162–187). -/
def perfAstIssues (tree : PyNode) : List PerformanceIssue :=
  (astWalk tree).flatMap perfNodeIssues

/-- Regex-class `\s+` / literal matching helpers for
`PerformanceAnalyzer._check_patterns`. -/
def dropWs1 (cs : List Char) : Option (List Char) :=
  let ws := cs.takeWhile isPyWs
  if ws.isEmpty then none else some (cs.dropWhile isPyWs)

/-- `re.search(r"from\s+\*\s+import", code)` as a Bool. -/
def matchFromStarImport : List Char → Bool
  | [] => false
  | c :: rest =>
    (Id.run do
      let cs := c :: rest
      if ("from".data.isPrefixOf cs) then
        match dropWs1 (cs.drop 4) with
        | some ('*' :: r2) =>
          match dropWs1 r2 with
          | some r3 => return "import".data.isPrefixOf r3
          | none => return false
        | _ => return false
      else return false) ||
    matchFromStarImport rest

/-- `re.search(r"print\s*\(\s*['\"]debug", code, re.IGNORECASE)` as a Bool. -/
def matchDebugPrint : List Char → Bool
  | [] => false
  | c :: rest =>
    (Id.run do
      let cs := (c :: rest).map Char.toLower
      if ("print".data.isPrefixOf cs) then
        match (cs.drop 5).dropWhile isPyWs with
        | '(' :: r2 =>
          match r2.dropWhile isPyWs with
          | q :: r3 =>
            if q = '\'' || q = '"' then return "debug".data.isPrefixOf r3
            else return false
          | [] => return false
        | _ => return false
      else return false) ||
    matchDebugPrint rest

/-- `re.search(r"list\s*\(\s*\[\s*", code)` as a Bool. -/
def matchRedundantList : List Char → Bool
  | [] => false
  | c :: rest =>
    (Id.run do
      let cs := c :: rest
      if ("list".data.isPrefixOf cs) then
        match (cs.drop 4).dropWhile isPyWs with
        | '(' :: r2 =>
          match r2.dropWhile isPyWs with
          | '[' :: _ => return true
          | _ => return false
        | _ => return false
      else return false) ||
    matchRedundantList rest

/-- `PerformanceAnalyzer._check_patterns` (lines 241–278). -/
def perfPatternIssues (code : String) : List PerformanceIssue :=
  (if matchFromStarImport code.data then
    [⟨"wildcard_import", none,
      "Wildcard imports reduce clarity and can cause namespace pollution",
      "low", some "Import specific items: from module import func1, func2"⟩]
  else []) ++
  (if matchDebugPrint code.data then
    [⟨"debug_print", none, "Debug print statements left in code", "low",
      some "Remove debug prints or use logging module"⟩]
  else []) ++
  (if matchRedundantList code.data then
    [⟨"redundant_conversion", none,
      "Converting list literal to list is redundant", "low",
      some "Remove list() conversion from list literals"⟩]
  else [])

/-- `PerformanceAnalyzer.analyze` (lines 147–195): the tree-based issues
(none when `ast.parse` raised), then the regex-based issues. -/
def performanceAnalyze (code : String) (tree : Option PyNode) :
    List PerformanceIssue :=
  (match tree with
   | some t => perfAstIssues t
   | none => []) ++ perfPatternIssues code

/-! ## `error_detection.SecurityAnalyzer` -/

structure SecurityIssue where
  type : String
  severity : String
  message : String
  line : Option Nat
  fix : Option String
deriving Repr, BEq, DecidableEq

/-- `SecurityAnalyzer._get_fix` (lines 132–141). -/
def getFix (issueType : String) : String :=
  if issueType = "hardcoded_secret" then "Use environment variables: os.getenv('API_KEY')"
  else if issueType = "eval_usage" then "Use ast.literal_eval() or json.loads() for safe parsing"
  else if issueType = "unvalidated_input" then "Use subprocess with shell=False and validate inputs"
  else if issueType = "pickle_usage" then "Use json or other safe serialization formats"
  else if issueType = "sql_injection" then "Use parameterized queries: execute(query, params)"
  else "Review and fix this security issue"

/-- One entry of the `SECURITY_PATTERNS` table: its key, its regexes — each
modelled as the predicate `re.search(pattern, line, re.IGNORECASE)` on one
line — and its metadata. -/
structure SecurityPattern where
  type : String
  patterns : List (String → Bool)
  severity : String
  message : String

/-- `enumerate(l, i)`. -/
def withIdx {α : Type} : Nat → List α → List (Nat × α)
  | _, [] => []
  | i, a :: l => (i, a) :: withIdx (i + 1) l

/-- `enumerate(code.split("\n"), 1)`. -/
def enumLines (code : String) : List (Nat × String) :=
  withIdx 1 (pyLines code)

/-- The issue built at line 63–71 for a pattern-table match on a line. -/
def mkSecurityIssue (e : SecurityPattern) (line : Nat) : SecurityIssue :=
  ⟨e.type, e.severity, e.message, some line, some (getFix e.type)⟩

/-- The pattern-table part of `SecurityAnalyzer.analyze` (lines 59–71):
iterate the table in declaration order, each regex in order, each line in
order. -/
def securityPatternIssues (catalog : List SecurityPattern) (code : String) :
    List SecurityIssue :=
  catalog.flatMap (fun e =>
    e.patterns.flatMap (fun p =>
      (enumLines code).filterMap (fun ln =>
        if p ln.2 then some (mkSecurityIssue e ln.1) else none)))

/-- `SecurityAnalyzer._get_call_name` (lines 117–123): for an attribute call
this is only the final attribute, never the dotted path. -/
def getCallName (n : PyNode) : Option String :=
  match n.kind with
  | .callAttr attr _ => some attr
  | .callName id _ => some id
  | _ => none

def hasTimeoutKw (n : PyNode) : Bool :=
  match n.kind with
  | .callAttr _ t => t
  | .callName _ t => t
  | _ => false

/-- `SecurityAnalyzer._check_ast_issues` (lines 78–115): asserts, and calls
named exactly `requests.get`/`requests.post`/`requests.request` without a
timeout keyword. -/
def securityAstIssues (tree : Option PyNode) : List SecurityIssue :=
  match tree with
  | none => []
  | some t =>
    (astWalk t).flatMap (fun node =>
      let a : List SecurityIssue :=
        match node.kind with
        | .assertStmt =>
          [⟨"assertion", "medium",
            "Assertions can be disabled with -O flag, avoid for critical checks",
            some node.lineno, some "Use proper exception handling instead of assertions"⟩]
        | _ => []
      let b : List SecurityIssue :=
        match getCallName node with
        | some name =>
          if (name = "requests.get" || name = "requests.post" ||
              name = "requests.request") && !hasTimeoutKw node then
            [⟨"missing_timeout", "medium",
              "HTTP request without timeout could hang indefinitely",
              some node.lineno, some "Add timeout parameter: requests.get(url, timeout=30)"⟩]
          else []
        | none => []
      a ++ b)

/-- `SecurityAnalyzer.analyze` (lines 46–76): pattern-table findings first,
then the tree-based findings. -/
def securityAnalyze (catalog : List SecurityPattern) (code : String)
    (tree : Option PyNode) : List SecurityIssue :=
  securityPatternIssues catalog code ++ securityAstIssues tree

/-! ## `code_metrics.CodeMetricsAnalyzer` -/

structure CodeMetrics where
  lines_of_code : Nat
  cyclomatic_complexity : ℚ
  functions : Nat
  classes : Nat
  comments_ratio : ℚ
  duplicated_lines : Nat
  type_hints_coverage : ℚ
deriving Repr, BEq, DecidableEq

/-- `_count_lines` (lines 46–49). -/
def countLines (code : String) : Nat :=
  (pyLines code).countP (fun l =>
    !(pyStrip l).data.isEmpty && !pyStartsWith (pyStrip l) "#")

def isComplexityNode (n : PyNode) : Bool :=
  match n.kind with
  | .ifStmt => true
  | .forStmt => true
  | .whileStmt => true
  | .exceptHandler => true
  | .boolOp => true
  | _ => false

/-- `_calculate_complexity` (lines 51–78): arithmetic mean over functions of
1 + number of branching nodes in the function's subtree; `1.0` with no
functions; `0.0` on `SyntaxError`. -/
def calculateComplexity (tree : Option PyNode) : ℚ :=
  match tree with
  | none => 0
  | some t =>
    let complexities := (astWalk t).filterMap (fun n =>
      if isFuncDef n then some (1 + (astWalk n).countP isComplexityNode) else none)
    if complexities.isEmpty then 1
    else ((complexities.map (fun c => (c : ℚ))).sum) / (complexities.length : ℚ)

/-- `_count_functions` (lines 80–90). -/
def countFunctions (tree : Option PyNode) : Nat :=
  match tree with
  | none => 0
  | some t => (astWalk t).countP isFuncDef

def isClassDef (n : PyNode) : Bool :=
  match n.kind with
  | .classDef => true
  | _ => false

/-- `_count_classes` (lines 92–98). -/
def countClasses (tree : Option PyNode) : Nat :=
  match tree with
  | none => 0
  | some t => (astWalk t).countP isClassDef

/-- `_calculate_comment_ratio` (lines 100–110): comment lines over non-blank
lines, `0.0` when there are no non-blank lines. -/
def calculateCommentRatio (code : String) : ℚ :=
  let lines := pyLines code
  let commentLines := lines.countP (fun l => pyStartsWith (pyStrip l) "#")
  let codeLines := lines.countP (fun l => !(pyStrip l).data.isEmpty)
  if 0 < codeLines then (commentLines : ℚ) / (codeLines : ℚ) else 0

def dupLinesAux : List String → List String → Nat
  | [], _ => 0
  | l :: rest, seen =>
    (if seen.contains l then 1 else 0) + dupLinesAux rest (seen ++ [l])

/-- `_find_duplicated_lines` (lines 112–128): non-blank, non-comment stripped
lines that repeat an earlier such line. -/
def findDuplicatedLines (code : String) : Nat :=
  let cleaned := ((pyLines code).map pyStrip).filter (fun l =>
    !l.data.isEmpty && !pyStartsWith l "#")
  dupLinesAux cleaned []

def funcHasHints (n : PyNode) : Bool :=
  match n.kind with
  | .functionDef _ hasReturns argAnnots => hasReturns || argAnnots.any id
  | .asyncFunctionDef _ hasReturns argAnnots => hasReturns || argAnnots.any id
  | _ => false

/-- `_calculate_type_hints_coverage` (lines 130–152): fraction of functions
with a return annotation or an annotated positional argument; `1.0` with no
functions; `0.0` on `SyntaxError`. -/
def calculateTypeHintsCoverage (tree : Option PyNode) : ℚ :=
  match tree with
  | none => 0
  | some t =>
    let functions := (astWalk t).filter isFuncDef
    if functions.isEmpty then 1
    else ((functions.countP funcHasHints : ℚ)) / (functions.length : ℚ)

/-- `CodeMetricsAnalyzer.analyze` (lines 16–44); `tree` is `ast.parse code`
(`none` on `SyntaxError`). -/
def metricsAnalyze (code : String) (tree : Option PyNode) : CodeMetrics :=
  { lines_of_code := countLines code
    cyclomatic_complexity := calculateComplexity tree
    functions := countFunctions tree
    classes := countClasses tree
    comments_ratio := calculateCommentRatio code
    duplicated_lines := findDuplicatedLines code
    type_hints_coverage := calculateTypeHintsCoverage tree }

/-- `_calculate_quality_score` (lines 169–190), over the metrics stored by
`analyze` (all Python arithmetic here is exact, so `ℚ` is a faithful model
of the `float` computation). -/
def calculateQualityScore (m : CodeMetrics) : ℚ :=
  let score : ℚ := 100
  let score := if 5 < m.cyclomatic_complexity then
      score - min 20 ((m.cyclomatic_complexity - 5) * 2)
    else score
  let score := score + min 10 (m.comments_ratio * 50)
  let score := score - min 15 ((m.duplicated_lines : ℚ))
  let score := score + min 10 (m.type_hints_coverage * 30)
  max 0 (min 100 score)

/-! ## Specification-side definitions used to state the claims

These restate spec sentences directly (filtered lists, key orders, run
states); the theorems below compare them with the source-translated
definitions above. -/

mutual

/-- A tree whose `_parent` attributes are all unset — the state of every
tree `ast.parse` returns, since nothing in the repository assigns
`_parent`. -/
def noParentAttrs : PyNode → Bool
  | .mk _ _ pa ch => pa.isNone && noParentList ch

/-- `noParentAttrs` over a forest. -/
def noParentList : List PyNode → Bool
  | [] => true
  | n :: rest => noParentAttrs n && noParentList rest

end

/-- Spec form of the heuristic issue list before the cap: every stripped
line of admissible length containing a problem-word, truncated to 150. -/
def issuesOfLines (lines : List String) : List String :=
  (((lines.map pyStrip).filter (fun l => validLine l && lineHasAny l problemWords)).map
    (fun l => pyTake l 150))

/-- Spec form of the heuristic suggestion list before the cap: every stripped
line of admissible length containing a suggestion-word and no problem-word,
truncated to 150. -/
def suggestionsOfLines (lines : List String) : List String :=
  (((lines.map pyStrip).filter (fun l =>
      validLine l && !lineHasAny l problemWords && lineHasAny l suggestionWords)).map
    (fun l => pyTake l 150))

/-- The review object the heuristic stage should produce according to the
spec reading of lines 512–536. -/
def heuristicSpec (response : String) : JsonVal :=
  let issues := if heuristicGuard response then (issuesOfLines (pyLines response)).take 5 else []
  let suggestions :=
    if heuristicGuard response then (suggestionsOfLines (pyLines response)).take 5 else []
  if issues.isEmpty && suggestions.isEmpty then placeholderObj
  else
    .obj [("valid", .bool true), ("issues", .arr (issues.map .str)),
          ("suggestions", .arr (suggestions.map .str))]

/-- `securityPatternIssues` instrumented with the (catalog index, pattern
index, line number) key of each finding, for stating the ordering claim. -/
def securityPatternIssuesKeyed (catalog : List SecurityPattern) (code : String) :
    List ((Nat × Nat × Nat) × SecurityIssue) :=
  (withIdx 0 catalog).flatMap (fun ce =>
    (withIdx 0 ce.2.patterns).flatMap (fun pp =>
      (enumLines code).filterMap (fun ln =>
        if pp.2 ln.2 then some ((ce.1, pp.1, ln.1), mkSecurityIssue ce.2 ln.1)
        else none)))

/-- Strict lexicographic order on (catalog index, pattern index, line). -/
def keyLt (a b : Nat × Nat × Nat) : Prop :=
  a.1 < b.1 ∨ (a.1 = b.1 ∧ (a.2.1 < b.2.1 ∨ (a.2.1 = b.2.1 ∧ a.2.2 < b.2.2)))

/-- The `(current_code, initial_feedback)` pair entering iteration `k + 1` of
`refine`, along a run in which every earlier iteration generated
successfully and failed validation (the only situation in which the loop
continues). -/
def runState (gen : Nat → String → String → Except PyErr String)
    (validator : Option (String → Bool × String)) (code0 fb0 : String) :
    Nat → String × String
  | 0 => (code0, fb0)
  | k + 1 =>
    let st := runState gen validator code0 fb0 k
    match generateRefinement (gen (k + 1)) st.1 st.2 with
    | .ok rc => (rc, (valRes validator rc).2)
    | .error _ => st

/-! ## Concrete fixtures for the witnesses and counterexamples -/

/-- The tree `ast.parse` returns for the empty string: a bare `Module` with
no statements and no `_parent` attribute. -/
def emptyModule : PyNode := .mk .moduleNode 0 none []

/-- A chain of `n` nested `If` statements ending in a leaf statement. -/
def deepIfChain : Nat → PyNode
  | 0 => .mk .other 1 none []
  | n + 1 => .mk .ifStmt 1 none [deepIfChain n]

/-- The tree `ast.parse` returns for a function whose body is five nested
`if` statements (nesting depth beyond 4): no node carries a `_parent`
attribute. -/
def deepNestTree : PyNode :=
  .mk .moduleNode 0 none [.mk (.functionDef "f" false []) 1 none [deepIfChain 5]]

/-- A collaborator that appends a bang to the current code (witness for the
refinement-loop claims). -/
def echoBangGen : Nat → String → String → Except PyErr String :=
  fun _ c _ => .ok (c ++ "!")

/-- The result `refine` computes for `echoBangGen` with no validator: the
first iteration validates successfully, the generated code lands only in the
history, and the returned code is the original input. -/
def echoBangResult : RefineResult :=
  ⟨"x = 1", 1, true,
    [⟨1, "x = 1!", "Code passed basic validation",
      ["Added more comprehensive implementation"], true⟩]⟩

/-- A concrete metrics record for the quality-score witness. -/
def demoMetrics : CodeMetrics :=
  { lines_of_code := 10
    cyclomatic_complexity := 3
    functions := 2
    classes := 1
    comments_ratio := 1 / 10
    duplicated_lines := 2
    type_hints_coverage := 1 / 2 }

/-! ## Helper lemmas -/

theorem fixAttempts_none_of_fail (generate : Nat → Except PyErr String)
    (orig : String) (hfail : ∀ a, ∃ e, generate a = .error e) :
    ∀ l, fixAttempts generate orig l = none := by
  intro l
  induction l with
  | nil => rfl
  | cons a rest ih =>
    obtain ⟨e, he⟩ := hfail a
    simp [fixAttempts, he, ih]

theorem refineGo_ok_of_gen_ok (gen : Nat → String → String → Except PyErr String)
    (validator : Option (String → Bool × String)) :
    ∀ (fuel iter : Nat) (c f : String) (hist : List RefinementStep)
      (last : Option Bool),
      (∀ i cc ff, ∃ s, gen i cc ff = .ok s) →
      (1 ≤ fuel ∨ last.isSome) →
      ∃ r : RefineResult,
        refineGo gen validator fuel iter c f hist last = .ok r ∧
          iter ≤ r.iterations ∧ r.iterations ≤ iter + fuel ∧
          (1 ≤ fuel → iter + 1 ≤ r.iterations) := by
  intro fuel
  induction fuel with
  | zero =>
    intro iter c f hist last hgen hcase
    match last with
    | none => simp at hcase
    | some s =>
      exact ⟨⟨c, iter, s, hist⟩, rfl, le_refl _, by simp, by intro h; omega⟩
  | succ n ih =>
    intro iter c f hist last hgen _
    obtain ⟨resp, hresp⟩ := hgen (iter + 1) c f
    simp only [refineGo, generateRefinement, hresp]
    cases hv : (valRes validator (flExtractCode resp)).1 with
    | true =>
      refine ⟨⟨c, iter + 1, true,
        hist ++ [⟨iter + 1, flExtractCode resp,
          (valRes validator (flExtractCode resp)).2,
          extractImprovements c (flExtractCode resp), true⟩]⟩,
        ?_, by simp, by simp, by intro _; simp⟩
      simp [hv]
    | false =>
      obtain ⟨r, hr, h1, h2, _⟩ :=
        ih (iter + 1) (flExtractCode resp) (valRes validator (flExtractCode resp)).2
          (hist ++ [⟨iter + 1, flExtractCode resp,
            (valRes validator (flExtractCode resp)).2,
            extractImprovements c (flExtractCode resp), false⟩])
          (some false) hgen (Or.inr rfl)
      refine ⟨r, ?_, by omega, by omega, by intro _; omega⟩
      simp only [hv, Bool.false_eq_true, if_false]
      exact hr

theorem findSub_none_of_prefix (n1 n2 : List Char)
    (hpre : n1.isPrefixOf n2 = true) :
    ∀ cs : List Char, findSub cs n1 = none → findSub cs n2 = none := by
  intro cs
  induction cs with
  | nil =>
    intro h
    simp only [findSub] at h ⊢
    rcases n1 with _ | ⟨a, t⟩
    · simp at h
    · rcases n2 with _ | ⟨b, u⟩
      · simp [List.isPrefixOf] at hpre
      · simp
  | cons c rest ih =>
    intro h
    simp only [findSub] at h ⊢
    by_cases h1 : n1.isPrefixOf (c :: rest) = true
    · simp [h1] at h
    · simp only [h1, if_false] at h
      have h2 : n2.isPrefixOf (c :: rest) = false := by
        by_contra hcon
        have h2' : n2.isPrefixOf (c :: rest) = true := by
          revert hcon
          cases n2.isPrefixOf (c :: rest) <;> simp
        have : n1.isPrefixOf (c :: rest) = true := by
          rw [List.isPrefixOf_iff_prefix] at hpre h2' ⊢
          exact hpre.trans h2'
        exact h1 this
      simp only [h2, Bool.false_eq_true, if_false]
      have : findSub rest n1 = none := by
        cases hf : findSub rest n1 with
        | none => rfl
        | some v => rw [hf] at h; simp at h
      simp [ih this]

/-! ## The claims -/

/-- Claim C1 (counterexample): with a generation collaborator that always
raises, `IterativeFeedbackLoop.refine` propagates the exception instead of
returning a result — contradicting the claim that it returns a result for
every collaborator behavior, including an always-failing one. -/
theorem refine_raising_collaborator_counterexample :
    refine (fun _ _ _ => .error .generationError) none 3 "x = 1" "fix the bug" =
      .error .generationError := rfl

/-- Claim C1 (amended): for every validator and every generation
collaborator that returns (rather than raises), and any positive iteration
cap, `refine` terminates within `max_iterations` iterations and returns a
result carrying a code string and a success flag; but a raising collaborator
makes `refine` propagate the exception (see the counterexample). -/
theorem refine_bounded_without_raise
    (gen : Nat → String → String → Except PyErr String)
    (validator : Option (String → Bool × String)) (maxIterations : Nat)
    (code fb : String) (hcap : 1 ≤ maxIterations)
    (hgen : ∀ i c f, ∃ s, gen i c f = .ok s) :
    ∃ r : RefineResult,
      refine gen validator maxIterations code fb = .ok r ∧
        1 ≤ r.iterations ∧ r.iterations ≤ maxIterations := by
  obtain ⟨r, hr, _, h2, h3⟩ :=
    refineGo_ok_of_gen_ok gen validator maxIterations 0 code fb [] none hgen
      (Or.inl hcap)
  exact ⟨r, hr, by omega, by omega⟩

/-- Claim C1 witness: concrete instantiation with an echoing collaborator. -/
theorem refine_bounded_without_raise_witness :
    (1 : Nat) ≤ 3 ∧
      ∃ r : RefineResult,
        refine (fun _ c _ => .ok c) none 3 "x = 1" "fb" = .ok r ∧
          1 ≤ r.iterations ∧ r.iterations ≤ 3 :=
  ⟨by omega,
   refine_bounded_without_raise (fun _ c _ => .ok c) none 3 "x = 1" "fb"
     (by omega) (fun _ c _ => ⟨c, rfl⟩)⟩

/-- Claim C3 (counterexample): in `IterativeFeedbackLoop._generate_refinement`
a collaborator failure is not caught: it propagates to the caller, contrary
to the claim that every fixing-attempt failure is caught and a result still
returned. -/
theorem generate_refinement_propagates_counterexample :
    generateRefinement (fun _ _ => .error .generationError) "x = 1" "feedback" =
      .error .generationError := rfl

/-- Claim C3 (amended): in `CodeValidator._attempt_to_fix_issues`, a
collaborator failure during a fixing attempt is caught and retried up to the
attempt cap of 2, and the function always hands a result back to its caller —
either the incoming result unchanged or the result with `improved_code`
filled in; in particular an always-failing collaborator yields the incoming
result unchanged. (`IterativeFeedbackLoop._generate_refinement`, by contrast,
propagates the exception — see the counterexample.) -/
theorem attempt_to_fix_swallows_failures
    (generate : Nat → Except PyErr String)
    (result : List (String × JsonVal)) (orig : String) :
    (attemptToFixIssues generate result orig = result ∨
      ∃ f, attemptToFixIssues generate result orig =
        dictSet result "improved_code" (.str f)) ∧
    ((∀ a, ∃ e, generate a = .error e) →
      attemptToFixIssues generate result orig = result) := by
  constructor
  · unfold attemptToFixIssues
    by_cases h : (!(pyTruthy (dictGet result "issues" (.arr [])) ||
        pyTruthy (dictGet result "static_issues" (.arr [])))) = true
    · simp [h]
    · simp only [h, Bool.false_eq_true, if_false]
      cases hf : fixAttempts generate orig [1, 2] with
      | none => simp
      | some f => exact Or.inr ⟨f, rfl⟩
  · intro hfail
    unfold attemptToFixIssues
    by_cases h : (!(pyTruthy (dictGet result "issues" (.arr [])) ||
        pyTruthy (dictGet result "static_issues" (.arr [])))) = true
    · simp [h]
    · simp [h, fixAttempts_none_of_fail generate orig hfail]

/-- Claim C3 witness: an always-failing collaborator on a result that does
carry issues — both attempts fail and the incoming result is returned. -/
theorem attempt_to_fix_swallows_failures_witness :
    (∀ a : Nat, ∃ e, (fun _ : Nat => (.error .generationError : Except PyErr String)) a = .error e) ∧
      attemptToFixIssues (fun _ => .error .generationError)
        [("issues", .arr [.str "an issue"])] "x = 1" =
        [("issues", .arr [.str "an issue"])] :=
  ⟨fun _ => ⟨.generationError, rfl⟩,
   (attempt_to_fix_swallows_failures (fun _ => .error .generationError)
     [("issues", .arr [.str "an issue"])] "x = 1").2
     (fun _ => ⟨.generationError, rfl⟩)⟩

/-- Claim C4 (confirmed): the structured-response parser recovers the same
record from (1) the minimal record, (2) the record with a trailing comma
before a closing bracket, (3) the record in a fenced json block, (4) the
record preceded by prose; and the brace scan (5) ignores an unescaped
closing brace inside a string value and (6) treats an escaped quote inside a
string as not terminating it. -/
theorem robust_json_parse_roundtrip :
    robustJsonParse "\x7b\"valid\": true, \"issues\": []\x7d" =
      some (.obj [("valid", .bool true), ("issues", .arr [])]) ∧
    robustJsonParse "\x7b\"valid\": true, \"issues\": [],\x7d" =
      some (.obj [("valid", .bool true), ("issues", .arr [])]) ∧
    robustJsonParse "```json\n\x7b\"valid\": true, \"issues\": []\x7d\n```" =
      some (.obj [("valid", .bool true), ("issues", .arr [])]) ∧
    robustJsonParse "Here is the review:\n\x7b\"valid\": true, \"issues\": []\x7d" =
      some (.obj [("valid", .bool true), ("issues", .arr [])]) ∧
    robustJsonParse "Result: \x7b\"valid\": true, \"note\": \"a\x7db\"\x7d" =
      some (.obj [("valid", .bool true), ("note", .str "a\x7db")]) ∧
    robustJsonParse "Result: \x7b\"valid\": true, \"note\": \"a\\\"b\"\x7d" =
      some (.obj [("valid", .bool true), ("note", .str "a\"b")]) :=
  ⟨rfl, rfl, rfl, rfl, rfl, rfl⟩

/-- Claim C6 (counterexample): on syntactically invalid text (`ast.parse`
raises, modelled by the `none` tree) the analyzer returns cyclomatic
complexity `0.0` and type-hint coverage `0.0`, not the claimed `1.0`. -/
theorem metrics_invalid_text_counterexample :
    (metricsAnalyze "def" none).cyclomatic_complexity = 0 ∧
    (metricsAnalyze "def" none).type_hints_coverage = 0 ∧
    ¬((metricsAnalyze "def" none).cyclomatic_complexity = 1) ∧
    ¬((metricsAnalyze "def" none).type_hints_coverage = 1) :=
  ⟨rfl, rfl, by decide, by decide⟩

/-- Claim C6 (amended): for every *syntactically valid* code string with no
function definitions the analyzer returns cyclomatic complexity `1.0` and
type-hint coverage `1.0` (on invalid text both are `0.0` — see the
counterexample); and the empty code string yields zero lines of code,
complexity `1.0`, coverage `1.0` and zero duplicated lines. -/
theorem metrics_no_functions_defaults :
    (∀ (code : String) (t : PyNode), (∀ n ∈ astWalk t, isFuncDef n = false) →
      (metricsAnalyze code (some t)).cyclomatic_complexity = 1 ∧
      (metricsAnalyze code (some t)).type_hints_coverage = 1) ∧
    metricsAnalyze "" (some emptyModule) =
      { lines_of_code := 0, cyclomatic_complexity := 1, functions := 0,
        classes := 0, comments_ratio := 0, duplicated_lines := 0,
        type_hints_coverage := 1 } := by
  constructor
  · intro code t h
    have hfm : (astWalk t).filterMap
        (fun n => if isFuncDef n then some (1 + (astWalk n).countP isComplexityNode)
                  else none) = [] := by
      rw [List.filterMap_eq_nil_iff]
      intro n hn
      simp [h n hn]
    have hfl : (astWalk t).filter isFuncDef = [] := by
      rw [List.filter_eq_nil_iff]
      intro n hn
      simp [h n hn]
    constructor
    · simp [metricsAnalyze, calculateComplexity, hfm]
    · simp [metricsAnalyze, calculateTypeHintsCoverage, hfl]
  · decide

/-- Claim C6 witness: the empty-module tree has no function definitions, and
the defaults hold there. -/
theorem metrics_no_functions_defaults_witness :
    (∀ n ∈ astWalk emptyModule, isFuncDef n = false) ∧
    (metricsAnalyze "x = 1" (some emptyModule)).cyclomatic_complexity = 1 ∧
    (metricsAnalyze "x = 1" (some emptyModule)).type_hints_coverage = 1 :=
  ⟨by decide,
   (metrics_no_functions_defaults.1 "x = 1" emptyModule (by decide)).1,
   (metrics_no_functions_defaults.1 "x = 1" emptyModule (by decide)).2⟩

/-- Claim C8 (confirmed): the quality score never increases when the
duplicated-line count grows (other metrics fixed), never decreases when the
type-hint coverage grows, and is always clamped to `[0, 100]`. -/
theorem quality_score_monotone_clamped (m : CodeMetrics) (d1 d2 : Nat)
    (c1 c2 : ℚ) :
    (d1 ≤ d2 →
      calculateQualityScore { m with duplicated_lines := d2 } ≤
        calculateQualityScore { m with duplicated_lines := d1 }) ∧
    (c1 ≤ c2 →
      calculateQualityScore { m with type_hints_coverage := c1 } ≤
        calculateQualityScore { m with type_hints_coverage := c2 }) ∧
    0 ≤ calculateQualityScore m ∧ calculateQualityScore m ≤ 100 := by
  refine ⟨?_, ?_, ?_, ?_⟩
  · intro h
    have hd : (d1 : ℚ) ≤ (d2 : ℚ) := by exact_mod_cast h
    have hmin : min 15 ((d1 : ℚ)) ≤ min 15 ((d2 : ℚ)) := min_le_min le_rfl hd
    dsimp only [calculateQualityScore]
    apply max_le_max le_rfl
    apply min_le_min le_rfl
    linarith
  · intro h
    have hc : c1 * 30 ≤ c2 * 30 := by linarith
    have hmin : min 10 (c1 * 30) ≤ min 10 (c2 * 30) := min_le_min le_rfl hc
    dsimp only [calculateQualityScore]
    apply max_le_max le_rfl
    apply min_le_min le_rfl
    linarith
  · exact le_max_left 0 _
  · exact max_le (by norm_num) (min_le_left 100 _)

/-- Claim C8 witness: monotonicity and clamping at a concrete metrics
record. -/
theorem quality_score_monotone_clamped_witness :
    calculateQualityScore { demoMetrics with duplicated_lines := 1 } ≤
      calculateQualityScore { demoMetrics with duplicated_lines := 0 } ∧
    calculateQualityScore { demoMetrics with type_hints_coverage := 0 } ≤
      calculateQualityScore { demoMetrics with type_hints_coverage := 1 } ∧
    0 ≤ calculateQualityScore demoMetrics :=
  ⟨(quality_score_monotone_clamped demoMetrics 0 1 0 1).1 (by norm_num),
   (quality_score_monotone_clamped demoMetrics 0 1 0 1).2.1 (by norm_num),
   (quality_score_monotone_clamped demoMetrics 0 1 0 1).2.2.1⟩

/-- Claim C9 (counterexample): a multi-line raw response whose only code
marker is `import` is NOT accepted by the raw-text rule — extraction returns
nothing, contrary to the claim. -/
theorem extract_code_import_only_counterexample :
    extractCodeFromResponse "import os\nimport numpy\nimport sys\nimport json" =
      none := rfl

/-- Claim C9 (amended): when the response carries no fenced block at all,
extraction applies only the raw-text rule, which requires a `def ` or
`class ` marker (an `import` marker does *not* qualify, unlike in the fenced
rule) and more than two newline characters, returning the stripped response
in that case and nothing otherwise. -/
theorem extract_code_raw_text_rule (resp : String)
    (h : strContains (pyStrip resp) "```" = false) :
    extractCodeFromResponse resp =
      (if (strContains (pyStrip resp) "def " || strContains (pyStrip resp) "class ") &&
          decide (2 < countChar (pyStrip resp) '\n') then
        some (pyStrip resp)
      else none) := by
  have hnone : findSub (pyStrip resp).data "```".data = none := by
    unfold strContains at h
    cases hf : findSub (pyStrip resp).data "```".data with
    | none => rfl
    | some v => rw [hf] at h; simp at h
  have h1 : pyFind (pyStrip resp) "```python" = none := by
    unfold pyFind
    exact findSub_none_of_prefix "```".data "```python".data (by decide)
      (pyStrip resp).data hnone
  have h2 : pyFind (pyStrip resp) "```" = none := by
    unfold pyFind
    exact hnone
  unfold extractCodeFromResponse findFenced
  simp only [h1, h2]

/-- Claim C9 witness: a fence-free response with a `def` marker and three
newlines is returned whole. -/
theorem extract_code_raw_text_rule_witness :
    strContains (pyStrip "def f():\n    return 1\nx = f()\ny = 2") "```" = false ∧
    extractCodeFromResponse "def f():\n    return 1\nx = f()\ny = 2" =
      some "def f():\n    return 1\nx = f()\ny = 2" :=
  ⟨rfl, (extract_code_raw_text_rule "def f():\n    return 1\nx = f()\ny = 2" rfl).trans (by rfl)⟩

/-! ### Claim C2 -/

theorem heuristicScan_go (ls : List String) :
    ∀ acc : List String × List String,
      ls.foldl heuristicStep acc =
        (acc.1 ++ issuesOfLines ls, acc.2 ++ suggestionsOfLines ls) := by
  induction ls with
  | nil => intro acc; simp [issuesOfLines, suggestionsOfLines]
  | cons l rest ih =>
    intro acc
    rw [List.foldl_cons, ih]
    unfold heuristicStep issuesOfLines suggestionsOfLines
    by_cases h1 : validLine (pyStrip l) = true
    · by_cases h2 : lineHasAny (pyStrip l) problemWords = true
      · simp [h1, h2, List.filter_cons]
      · by_cases h3 : lineHasAny (pyStrip l) suggestionWords = true
        · simp [h1, h2, h3, List.filter_cons]
        · simp [h1, h2, h3, List.filter_cons]
    · simp only [Bool.not_eq_true] at h1
      simp [h1, List.filter_cons]

theorem heuristicScan_eq (lines : List String) :
    heuristicScan lines = (issuesOfLines lines, suggestionsOfLines lines) := by
  rw [heuristicScan, heuristicScan_go]
  simp

theorem heuristicReview_eq_spec (r : String) : heuristicReview r = heuristicSpec r := by
  unfold heuristicReview heuristicSpec
  cases hg : heuristicGuard r <;> simp [hg, heuristicScan_eq]

theorem ensureKey_obj (d : List (String × JsonVal)) (k : String) (dflt : JsonVal) :
    ensureKey (.obj d) k dflt =
      .ok (.obj (if d.any (fun p => p.1 = k) then d else d ++ [(k, dflt)])) := by
  unfold ensureKey keyIn setKeyJson dictSet
  cases h : d.any (fun p => p.1 = k) <;> simp [h]

theorem find?_keeps_append {α : Type} (p : α → Bool) (l1 l2 : List α) (x : α)
    (h : l1.find? p = some x) : (l1 ++ l2).find? p = some x := by
  rw [List.find?_append, h]
  rfl

/-- Claim C2 (amended): the parser returns the heuristic fragment exactly
when the robust JSON parse yields nothing (so: the line scan runs only when
the whole response mentions error/bug/issue; each admissible-length stripped
line with a problem-word becomes a finding, each one with a suggestion-word
and no problem-word becomes a suggestion, truncated to 150 and capped at 5;
a placeholder suggestion when both stay empty); and when the robust parse
yields a non-empty JSON object, the parser returns it with `valid`
defaulting to true. (For a truthy non-object parse it raises `TypeError`
instead — see the counterexample.) -/
theorem parse_review_heuristic_spec (resp : String) :
    (robustJsonParse (pyStrip resp) = none →
      parseReviewResponse resp = .ok (heuristicSpec (pyStrip resp))) ∧
    (∀ d : List (String × JsonVal),
      robustJsonParse (pyStrip resp) = some (.obj d) → d ≠ [] →
      ∃ d', parseReviewResponse resp = .ok (.obj d') ∧
        (d.any (fun p => p.1 = "valid") = false →
          dictGet d' "valid" .null = .bool true)) := by
  constructor
  · intro hrob
    unfold parseReviewResponse
    simp only [hrob]
    rw [heuristicReview_eq_spec]
  · intro d hrob hne
    have ht : pyTruthy (JsonVal.obj d) = true := by
      cases d with
      | nil => exact absurd rfl hne
      | cons a t => simp [pyTruthy]
    unfold parseReviewResponse
    simp only [hrob, ht, if_true, ensureKey_obj]
    refine ⟨_, rfl, fun hnv => ?_⟩
    simp only [hnv, Bool.false_eq_true, if_false]
    have hstep : ∀ (X : List (String × JsonVal)) (c : Prop) [Decidable c]
        (k : String) (v : JsonVal),
        X.find? (fun p => p.1 = "valid") = some ("valid", .bool true) →
        (if c then X else X ++ [(k, v)]).find? (fun p => p.1 = "valid") =
          some ("valid", .bool true) := by
      intro X c _ k v hX
      by_cases hc : c
      · simp [hc, hX]
      · simp only [hc, if_false]
        exact find?_keeps_append _ _ _ _ hX
    have h1 : (d ++ [("valid", JsonVal.bool true)]).find?
        (fun p => p.1 = "valid") = some ("valid", .bool true) := by
      have hdnone : d.find? (fun p => p.1 = "valid") = none := by
        rw [List.find?_eq_none]
        intro x hx hpx
        have hany : d.any (fun p => decide (p.1 = "valid")) = true :=
          List.any_eq_true.mpr ⟨x, hx, hpx⟩
        rw [hany] at hnv
        exact Bool.noConfusion hnv
      rw [List.find?_append, hdnone]
      simp [List.find?]
    unfold dictGet
    rw [hstep _ _ _ _ (hstep _ _ _ _ h1)]

/-- Claim C2 witness: a response the robust parse rejects; the parser
returns the heuristic fragment. -/
theorem parse_review_heuristic_spec_witness :
    robustJsonParse (pyStrip "the code has a bug; you should add error handling") = none ∧
    parseReviewResponse "the code has a bug; you should add error handling" =
      .ok (heuristicSpec (pyStrip "the code has a bug; you should add error handling")) :=
  ⟨rfl, (parse_review_heuristic_spec "the code has a bug; you should add error handling").1 rfl⟩

/-- Claim C2 (counterexample): the response `42` parses as a truthy
non-object JSON value, and the parser then raises a `TypeError` instead of
returning a usable fragment. -/
theorem parse_review_nondict_counterexample :
    parseReviewResponse "42" = .error .typeError := rfl

/-! ### Claim C5 -/

theorem noParentList_append (a b : List PyNode) :
    noParentList (a ++ b) = (noParentList a && noParentList b) := by
  induction a with
  | nil => simp [noParentList]
  | cons n rest ih => simp [noParentList, ih, Bool.and_assoc]

theorem noParent_walk :
    ∀ (fuel : Nat) (q : List PyNode), noParentList q = true →
      ∀ m ∈ walkAux fuel q, noParentAttrs m = true := by
  intro fuel
  induction fuel with
  | zero =>
    intro q h m hm
    simp [walkAux] at hm
  | succ n ih =>
    intro q h m hm
    match q with
    | [] => simp [walkAux] at hm
    | .mk k l p ch :: rest =>
      rw [walkAux] at hm
      simp only [noParentList, noParentAttrs, Bool.and_eq_true] at h
      rcases List.mem_cons.mp hm with rfl | hm'
      · simp [noParentAttrs, h.1.1, h.1.2]
      · apply ih (rest ++ ch) ?_ m hm'
        rw [noParentList_append]
        simp [h.1.2, h.2]

theorem parentChainLen_zero (m : PyNode) (h : noParentAttrs m = true) :
    parentChainLen m = 0 := by
  obtain ⟨k, l, pa, ch⟩ := m
  simp only [noParentAttrs, Bool.and_eq_true] at h
  cases pa with
  | none => rfl
  | some p => simp at h

theorem getNestingDepth_zero (node : PyNode) (h : noParentAttrs node = true) :
    getNestingDepth node = 0 := by
  unfold getNestingDepth
  have hall : ∀ m ∈ astWalk node, parentChainLen m = 0 := by
    intro m hm
    exact parentChainLen_zero m
      (noParent_walk _ [node] (by simp [noParentList, h]) m hm)
  generalize astWalk node = l at hall
  induction l with
  | nil => rfl
  | cons x t ih =>
    rw [List.foldl_cons, hall x (by simp)]
    exact ih fun m hm => hall m (List.mem_cons_of_mem _ hm)

theorem checkStringConcat_nil (m : PyNode) (h : noParentAttrs m = true) :
    checkStringConcat m = [] := by
  obtain ⟨k, l, pa, ch⟩ := m
  simp only [noParentAttrs, Bool.and_eq_true] at h
  cases pa with
  | some p => simp at h
  | none =>
    unfold checkStringConcat
    cases k <;> simp [PyNode.kind, PyNode.parentAttr]

theorem loopIssueOf_type (c : PyNode) (x : PerformanceIssue)
    (h : loopIssueOf c = some x) : x.type = "inefficient_loop" := by
  unfold loopIssueOf at h
  cases hk : c.kind <;> rw [hk] at h <;> simp at h
  obtain ⟨-, rfl⟩ := h
  rfl

theorem perfNode_filter_nil (m : PyNode) (h : noParentAttrs m = true) :
    (perfNodeIssues m).filter (fun i => i.type == "deep_nesting") = [] := by
  unfold perfNodeIssues
  rw [List.filter_append, List.filter_append]
  have h1 : ((match m.kind with
      | .forStmt => checkLoopPatterns m
      | _ => []).filter (fun (i : PerformanceIssue) => i.type == "deep_nesting")) = [] := by
    cases m.kind <;> try simp
    intro x hx
    unfold checkLoopPatterns at hx
    obtain ⟨c, -, hc⟩ := List.mem_filterMap.mp hx
    simp [loopIssueOf_type c x hc]
  have h2 : ((match m.kind with
      | .binOpAdd _ _ => checkStringConcat m
      | _ => []).filter (fun (i : PerformanceIssue) => i.type == "deep_nesting")) = [] := by
    cases m.kind <;> simp [checkStringConcat_nil m h]
  have h3 : ((match funcDefName m with
      | some name =>
        let depth := getNestingDepth m
        if 4 < depth then
          ([⟨"deep_nesting", some name,
            "High nesting depth (" ++ toString depth ++
              ") reduces readability and performance",
            "medium", some "Refactor into smaller functions"⟩] : List PerformanceIssue)
        else []
      | none => []).filter (fun (i : PerformanceIssue) => i.type == "deep_nesting")) = [] := by
    cases funcDefName m <;> simp [getNestingDepth_zero m h]
  rw [h1, h2, h3]
  rfl

/-- Claim C5 (code bug): the analyzer can never report a `deep_nesting`
finding, whatever the code and however deeply nested its functions are —
`_get_nesting_depth` walks `_parent` links that `ast.parse` never creates
and no code of the repository ever assigns, so the computed depth is always
0. The spec's requirement (functions nested deeper than 4 are flagged) is
the evident intent; the code cannot meet it. -/
theorem deep_nesting_never_reported (code : String) (t : PyNode)
    (h : noParentAttrs t = true) :
    (performanceAnalyze code (some t)).filter
      (fun i => i.type == "deep_nesting") = [] := by
  unfold performanceAnalyze perfAstIssues
  rw [List.filter_append, List.filter_flatMap]
  have h1 : ((astWalk t).flatMap fun m =>
      (perfNodeIssues m).filter (fun i => i.type == "deep_nesting")) = [] := by
    rw [List.flatMap_eq_nil_iff]
    intro m hm
    exact perfNode_filter_nil m
      (noParent_walk _ [t] (by simp [noParentList, h]) m hm)
  rw [h1]
  unfold perfPatternIssues
  cases matchFromStarImport code.data <;> cases matchDebugPrint code.data <;>
    cases matchRedundantList code.data <;> simp

/-- Claim C5 witness: the parse of a function with five nested ifs carries
no `_parent` attributes, and no `deep_nesting` finding is produced for it. -/
theorem deep_nesting_never_reported_witness :
    noParentAttrs deepNestTree = true ∧
    (performanceAnalyze
      "def f():\n    if a:\n        if b:\n            if c:\n                if d:\n                    if e:\n                        pass"
      (some deepNestTree)).filter (fun i => i.type == "deep_nesting") = [] :=
  ⟨rfl,
   deep_nesting_never_reported
     "def f():\n    if a:\n        if b:\n            if c:\n                if d:\n                    if e:\n                        pass"
     deepNestTree rfl⟩

/-! ### Claim C7 -/

theorem withIdx_le {α : Type} :
    ∀ (l : List α) (i : Nat), ∀ x ∈ withIdx i l, i ≤ x.1 := by
  intro l
  induction l with
  | nil => intro i x hx; simp [withIdx] at hx
  | cons a rest ih =>
    intro i x hx
    rw [withIdx] at hx
    rcases List.mem_cons.mp hx with rfl | hx'
    · exact le_refl i
    · exact Nat.le_of_succ_le (ih (i + 1) x hx')

theorem withIdx_pairwise {α : Type} :
    ∀ (l : List α) (i : Nat),
      List.Pairwise (fun a b => a.1 < b.1) (withIdx i l) := by
  intro l
  induction l with
  | nil => intro i; simp [withIdx]
  | cons a rest ih =>
    intro i
    rw [withIdx]
    exact List.Pairwise.cons
      (fun b hb => Nat.lt_of_lt_of_le (Nat.lt_succ_self i) (withIdx_le rest (i + 1) b hb))
      (ih (i + 1))

theorem flatMap_withIdx_snd {α β : Type} (g : α → List β) :
    ∀ (l : List α) (i : Nat),
      (withIdx i l).flatMap (fun p => g p.2) = l.flatMap g := by
  intro l
  induction l with
  | nil => intro i; rfl
  | cons a rest ih =>
    intro i
    rw [withIdx, List.flatMap_cons, List.flatMap_cons, ih]

theorem keyed_map_snd (catalog : List SecurityPattern) (code : String) :
    (securityPatternIssuesKeyed catalog code).map Prod.snd =
      securityPatternIssues catalog code := by
  unfold securityPatternIssuesKeyed securityPatternIssues
  rw [List.map_flatMap]
  have hinner : ∀ ce : Nat × SecurityPattern,
      ((withIdx 0 ce.2.patterns).flatMap (fun pp =>
        (enumLines code).filterMap (fun ln =>
          if pp.2 ln.2 then some ((ce.1, pp.1, ln.1), mkSecurityIssue ce.2 ln.1)
          else none))).map Prod.snd =
        ce.2.patterns.flatMap (fun p =>
          (enumLines code).filterMap (fun ln =>
            if p ln.2 then some (mkSecurityIssue ce.2 ln.1) else none)) := by
    intro ce
    rw [List.map_flatMap]
    rw [show (fun pp : Nat × (String → Bool) =>
        ((enumLines code).filterMap (fun ln =>
          if pp.2 ln.2 then some ((ce.1, pp.1, ln.1), mkSecurityIssue ce.2 ln.1)
          else none)).map Prod.snd) =
        (fun pp : Nat × (String → Bool) =>
          (enumLines code).filterMap (fun ln =>
            if pp.2 ln.2 then some (mkSecurityIssue ce.2 ln.1) else none)) from ?_]
    · exact flatMap_withIdx_snd
        (fun q => (enumLines code).filterMap (fun ln =>
          if q ln.2 then some (mkSecurityIssue ce.2 ln.1) else none))
        ce.2.patterns 0
    · funext pp
      rw [List.map_filterMap]
      apply List.filterMap_congr
      intro ln _
      by_cases hc : pp.2 ln.2 = true
      · simp [hc]
      · simp [hc]
  rw [show (fun ce : Nat × SecurityPattern =>
      ((withIdx 0 ce.2.patterns).flatMap (fun pp =>
        (enumLines code).filterMap (fun ln =>
          if pp.2 ln.2 then some ((ce.1, pp.1, ln.1), mkSecurityIssue ce.2 ln.1)
          else none))).map Prod.snd) =
      (fun ce : Nat × SecurityPattern =>
        ce.2.patterns.flatMap (fun p =>
          (enumLines code).filterMap (fun ln =>
            if p ln.2 then some (mkSecurityIssue ce.2 ln.1) else none))) from ?_]
  · exact flatMap_withIdx_snd
      (fun e => e.patterns.flatMap (fun p =>
        (enumLines code).filterMap (fun ln =>
          if p ln.2 then some (mkSecurityIssue e ln.1) else none)))
      catalog 0
  · funext ce
    exact hinner ce

theorem keyed_pairwise (catalog : List SecurityPattern) (code : String) :
    List.Pairwise (fun a b => keyLt a.1 b.1)
      (securityPatternIssuesKeyed catalog code) := by
  unfold securityPatternIssuesKeyed
  rw [List.pairwise_flatMap]
  constructor
  · intro ce _
    rw [List.pairwise_flatMap]
    constructor
    · intro pp _
      rw [List.pairwise_filterMap]
      have hpw : List.Pairwise (fun a b => a.1 < b.1) (enumLines code) :=
        withIdx_pairwise (pyLines code) 1
      refine hpw.imp ?_
      intro ln1 ln2 hlt x hx y hy
      by_cases h1 : pp.2 ln1.2 = true
      · by_cases h2 : pp.2 ln2.2 = true
        · simp only [h1, h2, if_true, Option.mem_def, Option.some.injEq] at hx hy
          subst hx
          subst hy
          exact Or.inr ⟨rfl, Or.inr ⟨rfl, hlt⟩⟩
        · simp [h2] at hy
      · simp [h1] at hx
    · have hpw := withIdx_pairwise ce.2.patterns 0
      refine hpw.imp ?_
      intro pp1 pp2 hlt x hx y hy
      obtain ⟨ln1, -, hf1⟩ := List.mem_filterMap.mp hx
      obtain ⟨ln2, -, hf2⟩ := List.mem_filterMap.mp hy
      by_cases h1 : pp1.2 ln1.2 = true
      · by_cases h2 : pp2.2 ln2.2 = true
        · simp only [h1, h2, if_true, Option.some.injEq] at hf1 hf2
          subst hf1
          subst hf2
          exact Or.inr ⟨rfl, Or.inl hlt⟩
        · simp [h2] at hf2
      · simp [h1] at hf1
  · have hcw := withIdx_pairwise catalog 0
    refine hcw.imp ?_
    intro ce1 ce2 hlt x hx y hy
    obtain ⟨pp1, -, hx'⟩ := List.mem_flatMap.mp hx
    obtain ⟨ln1, -, hf1⟩ := List.mem_filterMap.mp hx'
    obtain ⟨pp2, -, hy'⟩ := List.mem_flatMap.mp hy
    obtain ⟨ln2, -, hf2⟩ := List.mem_filterMap.mp hy'
    by_cases h1 : pp1.2 ln1.2 = true
    · by_cases h2 : pp2.2 ln2.2 = true
      · simp only [h1, h2, if_true, Option.some.injEq] at hf1 hf2
        subst hf1
        subst hf2
        exact Or.inl hlt
      · simp [h2] at hf2
    · simp [h1] at hf1

/-- Claim C7 (confirmed): static analysis and metrics computation are
deterministic — two runs on the same input are identical — and the
pattern-based findings come in catalog-declaration order, then pattern
order, then line order (strictly lexicographically increasing keys), with
the tree-walk findings appended after them in traversal order. -/
theorem analysis_deterministic_and_ordered (catalog : List SecurityPattern)
    (code : String) (tree : Option PyNode) :
    securityAnalyze catalog code tree = securityAnalyze catalog code tree ∧
    metricsAnalyze code tree = metricsAnalyze code tree ∧
    securityAnalyze catalog code tree =
      (securityPatternIssuesKeyed catalog code).map Prod.snd ++
        securityAstIssues tree ∧
    List.Pairwise (fun a b => keyLt a.1 b.1)
      (securityPatternIssuesKeyed catalog code) :=
  ⟨rfl, rfl, by rw [securityAnalyze, keyed_map_snd], keyed_pairwise catalog code⟩

/-! ### Claim C10 -/

theorem refineGo_success_spec (gen : Nat → String → String → Except PyErr String)
    (validator : Option (String → Bool × String)) (code0 fb0 : String) :
    ∀ (fuel iter : Nat) (hist : List RefinementStep) (last : Option Bool)
      (r : RefineResult),
      last ≠ some true →
      refineGo gen validator fuel iter
        (runState gen validator code0 fb0 iter).1
        (runState gen validator code0 fb0 iter).2 hist last = .ok r →
      r.success = true →
      iter < r.iterations ∧
      r.refined_code = (runState gen validator code0 fb0 (r.iterations - 1)).1 ∧
      ∃ genCode,
        generateRefinement (gen r.iterations)
          (runState gen validator code0 fb0 (r.iterations - 1)).1
          (runState gen validator code0 fb0 (r.iterations - 1)).2 = .ok genCode ∧
        r.history.getLast? = some ⟨r.iterations, genCode,
          (valRes validator genCode).2,
          extractImprovements
            (runState gen validator code0 fb0 (r.iterations - 1)).1 genCode,
          true⟩ := by
  intro fuel
  induction fuel with
  | zero =>
    intro iter hist last r hlast hr hs
    match last with
    | none => simp [refineGo] at hr
    | some s =>
      simp only [refineGo, Except.ok.injEq] at hr
      have hsucc : r.success = s := by rw [← hr]
      rw [hs] at hsucc
      exact absurd (by rw [← hsucc]) hlast
  | succ n ih =>
    intro iter hist last r hlast hr hs
    rw [refineGo] at hr
    cases hg : generateRefinement (gen (iter + 1))
        (runState gen validator code0 fb0 iter).1
        (runState gen validator code0 fb0 iter).2 with
    | error e => rw [hg] at hr; simp at hr
    | ok rc =>
      rw [hg] at hr
      have hrun : runState gen validator code0 fb0 (iter + 1) =
          (rc, (valRes validator rc).2) := by
        rw [runState, hg]
      cases hv : (valRes validator rc).1 with
      | true =>
        simp only [hv, if_true] at hr
        have hrr := (Except.ok.inj hr).symm
        subst hrr
        constructor
        · simp
        constructor
        · simp [Nat.add_sub_cancel]
        refine ⟨rc, ?_, ?_⟩
        · simpa [Nat.add_sub_cancel] using hg
        · simp only [Nat.add_sub_cancel]
          rw [List.getLast?_concat]
      | false =>
        simp only [hv, Bool.false_eq_true, if_false] at hr
        have h1 : rc = (runState gen validator code0 fb0 (iter + 1)).1 := by
          rw [hrun]
        have h2 : (valRes validator rc).2 =
            (runState gen validator code0 fb0 (iter + 1)).2 := by
          rw [hrun]
        rw [h2, h1] at hr
        obtain ⟨hlt, hrc, spec⟩ := ih (iter + 1) _ (some false) r (by simp) hr hs
        exact ⟨by omega, hrc, spec⟩

/-- Claim C10 (confirmed): whenever the validator reports success on
iteration `i`, `refine` returns as `refined_code` the code that was the
input to iteration `i` — for `i = 1` the original unrefined code — while the
successful `RefinementStep` recorded last in the history carries the newly
generated code; generated code reaches the result only by way of a failed
iteration updating `current_code`. -/
theorem refine_success_returns_input_code
    (gen : Nat → String → String → Except PyErr String)
    (validator : Option (String → Bool × String)) (maxIterations : Nat)
    (code fb : String) (r : RefineResult)
    (hr : refine gen validator maxIterations code fb = .ok r)
    (hs : r.success = true) :
    r.refined_code = (runState gen validator code fb (r.iterations - 1)).1 ∧
    1 ≤ r.iterations ∧
    (r.iterations = 1 → r.refined_code = code) ∧
    ∃ genCode,
      generateRefinement (gen r.iterations)
        (runState gen validator code fb (r.iterations - 1)).1
        (runState gen validator code fb (r.iterations - 1)).2 = .ok genCode ∧
      r.history.getLast? = some ⟨r.iterations, genCode,
        (valRes validator genCode).2,
        extractImprovements
          (runState gen validator code fb (r.iterations - 1)).1 genCode,
        true⟩ := by
  obtain ⟨hlt, hrc, spec⟩ :=
    refineGo_success_spec gen validator code fb maxIterations 0 [] none r
      (by simp) hr hs
  refine ⟨hrc, by omega, fun h1 => ?_, spec⟩
  rw [h1] at hrc
  simpa using hrc

/-- Claim C10 witness: with an echoing-plus-bang collaborator and no
validator, the first iteration succeeds; the result carries the original
code while the history's step carries the generated code. -/
theorem refine_success_returns_input_code_witness :
    refine echoBangGen none 3 "x = 1" "fb" = .ok echoBangResult ∧
    echoBangResult.success = true ∧
    (echoBangResult.refined_code =
        (runState echoBangGen none "x = 1" "fb" (echoBangResult.iterations - 1)).1 ∧
      1 ≤ echoBangResult.iterations ∧
      (echoBangResult.iterations = 1 → echoBangResult.refined_code = "x = 1") ∧
      ∃ genCode,
        generateRefinement (echoBangGen echoBangResult.iterations)
          (runState echoBangGen none "x = 1" "fb" (echoBangResult.iterations - 1)).1
          (runState echoBangGen none "x = 1" "fb" (echoBangResult.iterations - 1)).2 =
            .ok genCode ∧
        echoBangResult.history.getLast? = some ⟨echoBangResult.iterations, genCode,
          (valRes none genCode).2,
          extractImprovements
            (runState echoBangGen none "x = 1" "fb" (echoBangResult.iterations - 1)).1
            genCode,
          true⟩) :=
  ⟨rfl, rfl,
   refine_success_returns_input_code echoBangGen none 3 "x = 1" "fb"
     echoBangResult rfl rfl⟩

end NoLess
